import Mathlib

/-! Shallow embedding of src/scales/loadbalancer/aperture.py.

Conventions used throughout:
- Python floats are modelled as real numbers; wall-clock readings handed to
  MonoClock are rationals so that concrete runs are computable.
- Endpoints are natural numbers; the idle, active and pending endpoint sets of
  ApertureBalancerSink are finite sets.
- random.choice over the idle set is modelled by an oracle value
  pick : Option Nat; ValidPick pins it to the behaviour of random.choice
  (a member of the idle set when that set is nonempty, absent otherwise).
- The heap maintained by the base class HeapBalancerSink lives in heap.py,
  which is not part of the sources here; the contraction scan over
  self.heap[1:] therefore receives the heap's endpoint order as an oracle
  list, and the base class _AddSink and _RemoveSink calls, which touch only
  the heap, are the identity on this state.  Per the specification the base
  _AddSink returns a completion handle, so a successful expansion reports the
  endpoint it chose.
- Of the varz gauges only load_average matters to the claims; the field gauge
  holds the value most recently published to it, if any.
-/

namespace Scales

/-- State of MonoClock: the last value returned. -/
structure MonoClock where
  last : ℚ

/-- Source MonoClock.Sample: read the wall clock (the argument now stands for
the time.time() call), move the stored value forward only if the reading
increased, and return the stored value together with the updated clock. -/
def MonoClock.Sample (c : MonoClock) (now : ℚ) : ℚ × MonoClock :=
  if now - c.last > 0 then (now, { last := now }) else (c.last, c)

/-- Repeated sampling, one wall-clock reading per call. -/
def MonoClock.SampleAll (c : MonoClock) : List ℚ → List ℚ
  | [] => []
  | w :: ws => (c.Sample w).1 :: ((c.Sample w).2.SampleAll ws)

/-- State of Ema: the smoothing window, the last update timestamp (-1 is the
source's sentinel for never updated) and the current average. -/
structure Ema where
  window : ℝ
  time : ℝ
  value : ℝ

/-- Source Ema.__init__. -/
def Ema.init (window : ℝ) : Ema := { window := window, time := -1, value := 0 }

/-- Source Ema.Update. -/
noncomputable def Ema.Update (e : Ema) (ts sample : ℝ) : Ema :=
  if e.time = -1 then { e with time := ts, value := sample }
  else
    let delta := ts - e.time
    let w := if e.window = 0 then (0 : ℝ) else Real.exp (-delta / e.window)
    { e with time := ts, value := sample * (1 - w) + e.value * w }

/-- The sink_properties record consumed by ApertureBalancerSink.__init__. -/
structure Props where
  smoothing_window : ℝ
  min_size : ℕ
  min_load : ℝ
  max_load : ℝ
  jitter_min_sec : ℕ
  jitter_max_sec : ℕ

/-- The defaults declared by ApertureBalancerSink.Builder. -/
noncomputable def builderDefaults : Props :=
  { smoothing_window := 5, min_size := 1, min_load := 1/2, max_load := 2,
    jitter_min_sec := 120, jitter_max_sec := 240 }

/-- The mutable state of ApertureBalancerSink that the claims are about. -/
structure ApertureState where
  idle : Finset ℕ
  active : Finset ℕ
  pending : Finset ℕ
  total : ℤ
  ema : Ema
  clock : MonoClock
  gauge : Option ℝ

/-- Source ApertureBalancerSink.__init__, state fields only; now0 is the
time.time() reading taken by MonoClock's constructor.  Note that the source
constructs Ema(5) with a hardcoded window and never reads
sink_properties.smoothing_window. -/
def initState (props : Props) (now0 : ℚ) : ApertureState :=
  { idle := ∅, active := ∅, pending := ∅, total := 0,
    ema := Ema.init 5, clock := { last := now0 }, gauge := none }

/-- Behaviour of random.choice over the idle set: a member when the set is
nonempty, nothing when it is empty. -/
def ValidPick : Option ℕ → Finset ℕ → Prop
  | some e, t => e ∈ t
  | none, t => t = ∅

instance instDecValidPick (pick : Option ℕ) (t : Finset ℕ) : Decidable (ValidPick pick t) :=
  match pick with
  | some e => inferInstanceAs (Decidable (e ∈ t))
  | none => inferInstanceAs (Decidable (t = ∅))

/-- Source _TryExpandAperture.  The random.choice call is the oracle pick; the
base class _AddSink call touches only the heap and, per the spec, returns a
completion handle, so the chosen endpoint is reported alongside the state. -/
def tryExpandAperture (pick : Option ℕ) (s : ApertureState) : ApertureState × Option ℕ :=
  match pick with
  | some e => ({ s with idle := s.idle.erase e, active := insert e s.active }, some e)
  | none => (s, none)

/-- Source _ContractAperture.  The scan over self.heap[1:] is modelled by the
oracle list heap holding the heap's endpoints in array order; the first one
not in pending is evicted, exactly as in the source. -/
def contractAperture (cfg : Props) (heap : List ℕ) (s : ApertureState) : ApertureState :=
  if cfg.min_size < s.active.card then
    match heap.find? (fun e => decide (e ∉ s.pending)) with
    | some e => { s with active := s.active.erase e, idle := insert e s.idle }
    | none => s
  else s

/-- Source _RemoveSink.  The base class removal affects only the heap; then,
if the endpoint is active it is discarded from active and an expansion is
attempted, and afterwards, if it is idle, it is discarded from idle. -/
def removeSink (pick : Option ℕ) (ep : ℕ) (s : ApertureState) : ApertureState :=
  let s1 := if ep ∈ s.active then
      (tryExpandAperture pick { s with active := s.active.erase ep }).1
    else s
  if ep ∈ s1.idle then { s1 with idle := s1.idle.erase ep } else s1

/-- Source _OnNodeDown.  The source checks whether the downed endpoint is
active and, if so, expands the aperture; it never discards the endpoint from
active, although its own docstring says the downed node should be removed. -/
def onNodeDown (pick : Option ℕ) (ep : ℕ) (s : ApertureState) : ApertureState :=
  if ep ∈ s.active then (tryExpandAperture pick s).1 else s

/-- Outcome of the ar.wait() call inside _Jitter: either the wait itself
raises, or it returns with the expansion having stored an exception, or it
returns with the expansion having succeeded. -/
inductive JitterOutcome
  | waitRaises
  | completedErr
  | completedOk
  deriving DecidableEq

/-- Source _Jitter.  The finally clause only reschedules the next jitter, a
timer effect outside this state; when the wait raises, control leaves the try
block before the pending discard is reached, so the discard is skipped. -/
def jitter (cfg : Props) (pick : Option ℕ) (heap : List ℕ) (outcome : JitterOutcome)
    (s : ApertureState) : ApertureState :=
  match tryExpandAperture pick s with
  | (s1, none) => s1
  | (s1, some e) =>
    let s2 := { s1 with pending := insert e s1.pending }
    match outcome with
    | JitterOutcome.waitRaises => s2
    | JitterOutcome.completedErr => { s2 with pending := s2.pending.erase e }
    | JitterOutcome.completedOk =>
      let s3 := contractAperture cfg heap s2
      { s3 with pending := s3.pending.erase e }

/-- Source _AddSink.  num_healthy, the count of open channels in the heap, is
the oracle healthy; the base class _AddSink call affects only the heap. -/
def addSink (cfg : Props) (healthy : ℕ) (ep : ℕ) (s : ApertureState) : ApertureState :=
  if healthy < cfg.min_size then { s with active := insert ep s.active }
  else { s with idle := insert ep s.idle }

/-- Source _AdjustAperture, called with amount 1 from _OnGet and amount -1
from _OnPut; wallNow is the wall-clock reading taken by self.time.Sample(). -/
noncomputable def adjustAperture (cfg : Props) (pick : Option ℕ) (heap : List ℕ)
    (wallNow : ℚ) (amount : ℤ) (s : ApertureState) : ApertureState :=
  let total := s.total + amount
  let ts := s.clock.Sample wallNow
  let ema := s.ema.Update (ts.1 : ℝ) (total : ℝ)
  let avg := ema.value
  let s1 : ApertureState := { s with total := total, clock := ts.2, ema := ema }
  let sz := s1.active.card
  let load : ℝ := if sz = 0 then cfg.max_load else avg / (sz : ℝ)
  let s2 : ApertureState := if sz = 0 then s1 else { s1 with gauge := some load }
  if cfg.max_load ≤ load ∧ s2.idle.Nonempty then (tryExpandAperture pick s2).1
  else if load ≤ cfg.min_load ∧ cfg.min_size < sz then contractAperture cfg heap s2
  else s2

/-- The externally triggered balancer operations, each carrying its oracles. -/
inductive Op
  | add (healthy : ℕ) (ep : ℕ)
  | remove (pick : Option ℕ) (ep : ℕ)
  | down (pick : Option ℕ) (ep : ℕ)
  | jit (pick : Option ℕ) (heap : List ℕ) (outcome : JitterOutcome)
  | load (pick : Option ℕ) (heap : List ℕ) (wallNow : ℚ) (amount : ℤ)

/-- One balancer operation as a state transition. -/
noncomputable def step (cfg : Props) : Op → ApertureState → ApertureState
  | Op.add healthy ep, s => addSink cfg healthy ep s
  | Op.remove pick ep, s => removeSink pick ep s
  | Op.down pick ep, s => onNodeDown pick ep s
  | Op.jit pick heap outcome, s => jitter cfg pick heap outcome s
  | Op.load pick heap wallNow amount, s => adjustAperture cfg pick heap wallNow amount s

/-- Two active endpoints, one idle endpoint, nothing pending: the starting
state of the OnNodeDown backfill and jitter scenarios. -/
def s_c1 : ApertureState :=
  { idle := {2}, active := {0, 1}, pending := ∅, total := 0,
    ema := Ema.init 5, clock := { last := 0 }, gauge := none }

/-- Two active endpoints of which one is pending, no idle endpoint: the state
a jitter cycle produces while awaiting its expansion handle after the idle
set has been drained. -/
def s_c3 : ApertureState :=
  { idle := ∅, active := {0, 1}, pending := {0}, total := 0,
    ema := Ema.init 5, clock := { last := 0 }, gauge := none }

/-- One active endpoint, nothing idle, fresh EMA: a minimal state on which a
Put with no prior Get runs. -/
def s_c5 : ApertureState :=
  { idle := ∅, active := {0}, pending := ∅, total := 0,
    ema := Ema.init 5, clock := { last := 0 }, gauge := none }

/-- The builder defaults with the smoothing window reconfigured to 10. -/
noncomputable def props10 : Props := { builderDefaults with smoothing_window := 10 }

/-! Helper lemmas about MonoClock. -/

theorem sample_fst_ge (c : MonoClock) (w : ℚ) : c.last ≤ (c.Sample w).1 := by
  rw [MonoClock.Sample]
  split_ifs with h
  · show c.last ≤ w
    linarith
  · exact le_refl _

theorem sample_snd_last (c : MonoClock) (w : ℚ) : ((c.Sample w).2).last = (c.Sample w).1 := by
  rw [MonoClock.Sample]
  split_ifs <;> rfl

theorem sampleAll_head_ge (c : MonoClock) (ws : List ℚ) :
    ∀ v ∈ (c.SampleAll ws).head?, c.last ≤ v := by
  cases ws with
  | nil => intro v hv; simp [MonoClock.SampleAll] at hv
  | cons w ws =>
    intro v hv
    rw [MonoClock.SampleAll] at hv
    simp only [List.head?_cons, Option.mem_some_iff] at hv
    exact hv ▸ sample_fst_ge c w

theorem sampleAll_chain (ws : List ℚ) :
    ∀ c : MonoClock, List.Chain' (fun a b => a ≤ b) (c.SampleAll ws) := by
  induction ws with
  | nil => intro c; simp [MonoClock.SampleAll]
  | cons w ws ih =>
    intro c
    rw [MonoClock.SampleAll, List.chain'_cons']
    refine ⟨?_, ih _⟩
    intro y hy
    have h := sampleAll_head_ge (c.Sample w).2 ws y hy
    rw [sample_snd_last] at h
    exact h

/-- Claim C8: MonoClock.Sample returns a monotonically non-decreasing sequence
across calls on a single instance; when the wall clock goes backward or stays
equal the previously returned value is returned again; wall readings
10, 11, 10.5, 12 yield samples 10, 11, 11, 12. -/
theorem monoclock_monotone :
    (∀ (c : MonoClock) (ws : List ℚ), List.Chain' (fun a b => a ≤ b) (c.SampleAll ws)) ∧
    (∀ (c : MonoClock) (w : ℚ), w ≤ c.last → c.Sample w = (c.last, c)) ∧
    MonoClock.SampleAll { last := 10 } [10, 11, 21/2, 12] = [10, 11, 11, 12] := by
  refine ⟨fun c ws => sampleAll_chain ws c, ?_, ?_⟩
  · intro c w h
    rw [MonoClock.Sample, if_neg (by linarith : ¬ w - c.last > 0)]
  · norm_num [MonoClock.SampleAll, MonoClock.Sample]

/-- Witness for C8: a concrete backward wall reading re-returns the stored
value. -/
theorem monoclock_monotone_witness :
    MonoClock.Sample { last := 5 } 4 = (5, { last := 5 }) :=
  monoclock_monotone.2.1 { last := 5 } 4 (by norm_num)

/-! Theorems about Ema. -/

/-- Counterexample for C7: the sentinel detection of the first call breaks the
ordinal reading of the recurrence.  If the first call passes ts = -1, the
second call, a subsequent call with delta 3 - (-1) = 4, returns its sample 7
verbatim, not the value 7(1-w) + 5w with w = exp(-4/5) that the claimed
recurrence produces. -/
theorem ema_sentinel_cex :
    (((Ema.init 5).Update (-1) 5).Update 3 7).value = 7 ∧
    (((Ema.init 5).Update (-1) 5).Update 3 7).value
      ≠ 7 * (1 - Real.exp (-(3 - (-1)) / 5)) + 5 * Real.exp (-(3 - (-1)) / 5) := by
  have h1 : (((Ema.init 5).Update (-1) 5).Update 3 7).value = 7 := by
    norm_num [Ema.init, Ema.Update]
  refine ⟨h1, ?_⟩
  rw [h1]
  have hpos : 0 < Real.exp (-(3 - (-1)) / 5) := Real.exp_pos _
  intro hcontra
  nlinarith [hpos]

/-- Amended C7: the recurrence of Ema.Update, stated relative to the stored
sentinel rather than the call ordinal.  A call on a state whose stored
timestamp is the sentinel -1 (in particular the first call on a fresh
instance) stores (ts, x) and returns x; a call on any other state applies the
claimed decay recurrence. -/
theorem ema_update_recurrence (e : Ema) (ts x : ℝ) :
    (e.time = -1 → e.Update ts x = { e with time := ts, value := x }) ∧
    (e.time ≠ -1 → e.Update ts x =
      { e with time := ts,
               value := x * (1 - (if e.window = 0 then 0 else Real.exp (-(ts - e.time) / e.window)))
                      + e.value * (if e.window = 0 then 0 else Real.exp (-(ts - e.time) / e.window)) }) := by
  constructor <;> intro h <;> simp [Ema.Update, h]

/-- Witness for C7 amended: a first call on a fresh instance stores the
sample and timestamp. -/
theorem ema_update_recurrence_witness :
    (Ema.init 5).Update 2 9 = { window := 5, time := 2, value := 9 } :=
  (ema_update_recurrence (Ema.init 5) 2 9).1 rfl

/-- Counterexample for C9: with window 0 an update at an unchanged timestamp
(delta = 0) does not leave the value unchanged; it returns the new sample.
After one update at timestamp 0 with sample 1, an update at the same
timestamp 0 with sample 2 yields 2, not 1. -/
theorem ema_zero_window_cex :
    ((Ema.init 0).Update 0 1).value = 1 ∧
    (((Ema.init 0).Update 0 1).Update 0 2).time = ((Ema.init 0).Update 0 1).time ∧
    (((Ema.init 0).Update 0 1).Update 0 2).value = 2 ∧
    (((Ema.init 0).Update 0 1).Update 0 2).value ≠ ((Ema.init 0).Update 0 1).value := by
  norm_num [Ema.init, Ema.Update]

/-- Amended C9: for every window other than 0, an update whose timestamp
equals the stored one (delta = 0) leaves the EMA value unchanged, for every
sample. -/
theorem ema_delta_zero_unchanged (e : Ema) (x : ℝ)
    (ht : e.time ≠ -1) (hw : e.window ≠ 0) :
    (e.Update e.time x).value = e.value := by
  simp [Ema.Update, ht, hw, sub_self, neg_zero, zero_div, Real.exp_zero]

/-- Witness for C9 amended: window 5, stored state (0, 3), new sample 9 at
the stored timestamp leaves the value 3. -/
theorem ema_delta_zero_unchanged_witness :
    ((Ema.mk 5 0 3).Update 0 9).value = 3 :=
  ema_delta_zero_unchanged (Ema.mk 5 0 3) 9 (by norm_num) (by norm_num)

/-- Claim C10: for every update after the first with positive window and
non-negative delta, the returned value is a convex combination of the previous
value and the new sample, hence lies weakly between them. -/
theorem ema_update_between (e : Ema) (ts x : ℝ)
    (ht : e.time ≠ -1) (hw : 0 < e.window) (hd : 0 ≤ ts - e.time) :
    min x e.value ≤ (e.Update ts x).value ∧ (e.Update ts x).value ≤ max x e.value := by
  have hwne : e.window ≠ 0 := ne_of_gt hw
  have hval : (e.Update ts x).value
      = x * (1 - Real.exp (-(ts - e.time) / e.window))
        + e.value * Real.exp (-(ts - e.time) / e.window) := by
    simp [Ema.Update, ht, hwne]
  have hw0 : 0 < Real.exp (-(ts - e.time) / e.window) := Real.exp_pos _
  have hw1 : Real.exp (-(ts - e.time) / e.window) ≤ 1 := by
    have hnp : -(ts - e.time) / e.window ≤ 0 := by
      apply div_nonpos_of_nonpos_of_nonneg <;> linarith
    calc Real.exp (-(ts - e.time) / e.window) ≤ Real.exp 0 := Real.exp_le_exp.mpr hnp
      _ = 1 := Real.exp_zero
  rw [hval]
  constructor
  · have h1 := min_le_left x e.value
    have h2 := min_le_right x e.value
    nlinarith [mul_nonneg (sub_nonneg.mpr h1) (by linarith : (0:ℝ) ≤ 1 - Real.exp (-(ts - e.time) / e.window)),
               mul_nonneg (sub_nonneg.mpr h2) hw0.le]
  · have h1 := le_max_left x e.value
    have h2 := le_max_right x e.value
    nlinarith [mul_nonneg (sub_nonneg.mpr h1) (by linarith : (0:ℝ) ≤ 1 - Real.exp (-(ts - e.time) / e.window)),
               mul_nonneg (sub_nonneg.mpr h2) hw0.le]

/-- Witness for C10: window 1, stored state (0, 2), sample 5 at timestamp 0
(delta 0): the result stays between 2 and 5. -/
theorem ema_update_between_witness :
    min 5 (2:ℝ) ≤ ((Ema.mk 1 0 2).Update 0 5).value ∧
    ((Ema.mk 1 0 2).Update 0 5).value ≤ max 5 (2:ℝ) :=
  ema_update_between (Ema.mk 1 0 2) 0 5 (by norm_num) (by norm_num) (by norm_num)

/-! Helper lemmas about the aperture operations. -/

theorem tryExpand_pending (pick : Option ℕ) (s : ApertureState) :
    ((tryExpandAperture pick s).1).pending = s.pending := by
  cases pick <;> rfl

theorem tryExpand_gauge (pick : Option ℕ) (s : ApertureState) :
    ((tryExpandAperture pick s).1).gauge = s.gauge := by
  cases pick <;> rfl

theorem tryExpand_ema (pick : Option ℕ) (s : ApertureState) :
    ((tryExpandAperture pick s).1).ema = s.ema := by
  cases pick <;> rfl

theorem tryExpand_total (pick : Option ℕ) (s : ApertureState) :
    ((tryExpandAperture pick s).1).total = s.total := by
  cases pick <;> rfl

theorem tryExpand_card (pick : Option ℕ) (s : ApertureState) :
    ((tryExpandAperture pick s).1).active.card ≤ s.active.card + 1 ∧
    s.active.card ≤ ((tryExpandAperture pick s).1).active.card := by
  cases pick with
  | none => exact ⟨Nat.le_succ _, le_refl _⟩
  | some e => exact ⟨Finset.card_insert_le _ _, Finset.card_le_card (Finset.subset_insert _ _)⟩

theorem tryExpand_subset (pick : Option ℕ) (s : ApertureState)
    (h : s.pending ⊆ s.active) :
    ((tryExpandAperture pick s).1).pending ⊆ ((tryExpandAperture pick s).1).active := by
  cases pick with
  | none => exact h
  | some e => exact fun x hx => Finset.mem_insert_of_mem (h hx)

theorem find_not_pending (heap : List ℕ) (p : Finset ℕ) (e : ℕ)
    (h : heap.find? (fun x => decide (x ∉ p)) = some e) : e ∉ p := by
  have h2 := List.find?_some h
  simpa using h2

theorem contract_pending (cfg : Props) (heap : List ℕ) (s : ApertureState) :
    (contractAperture cfg heap s).pending = s.pending := by
  by_cases hc : cfg.min_size < s.active.card
  · simp only [contractAperture, if_pos hc]
    rcases heap.find? (fun e => decide (e ∉ s.pending)) with _ | e <;> rfl
  · simp only [contractAperture, if_neg hc]

theorem contract_gauge (cfg : Props) (heap : List ℕ) (s : ApertureState) :
    (contractAperture cfg heap s).gauge = s.gauge := by
  by_cases hc : cfg.min_size < s.active.card
  · simp only [contractAperture, if_pos hc]
    rcases heap.find? (fun e => decide (e ∉ s.pending)) with _ | e <;> rfl
  · simp only [contractAperture, if_neg hc]

theorem contract_ema (cfg : Props) (heap : List ℕ) (s : ApertureState) :
    (contractAperture cfg heap s).ema = s.ema := by
  by_cases hc : cfg.min_size < s.active.card
  · simp only [contractAperture, if_pos hc]
    rcases heap.find? (fun e => decide (e ∉ s.pending)) with _ | e <;> rfl
  · simp only [contractAperture, if_neg hc]

theorem contract_total (cfg : Props) (heap : List ℕ) (s : ApertureState) :
    (contractAperture cfg heap s).total = s.total := by
  by_cases hc : cfg.min_size < s.active.card
  · simp only [contractAperture, if_pos hc]
    rcases heap.find? (fun e => decide (e ∉ s.pending)) with _ | e <;> rfl
  · simp only [contractAperture, if_neg hc]

theorem card_le_erase_add_one (t : Finset ℕ) (a : ℕ) : t.card ≤ (t.erase a).card + 1 := by
  by_cases h : a ∈ t
  · rw [Finset.card_erase_of_mem h]
    omega
  · rw [Finset.erase_eq_of_not_mem h]
    omega

theorem contract_card (cfg : Props) (heap : List ℕ) (s : ApertureState) :
    (contractAperture cfg heap s).active.card ≤ s.active.card ∧
    s.active.card ≤ (contractAperture cfg heap s).active.card + 1 := by
  by_cases hc : cfg.min_size < s.active.card
  · simp only [contractAperture, if_pos hc]
    rcases heap.find? (fun e => decide (e ∉ s.pending)) with _ | e
    · exact ⟨le_refl _, Nat.le_succ _⟩
    · exact ⟨Finset.card_erase_le, card_le_erase_add_one _ _⟩
  · simp only [contractAperture, if_neg hc]
    exact ⟨le_refl _, Nat.le_succ _⟩

theorem contract_subset (cfg : Props) (heap : List ℕ) (s : ApertureState)
    (h : s.pending ⊆ s.active) :
    (contractAperture cfg heap s).pending ⊆ (contractAperture cfg heap s).active := by
  by_cases hc : cfg.min_size < s.active.card
  · simp only [contractAperture, if_pos hc]
    rcases hf : heap.find? (fun e => decide (e ∉ s.pending)) with _ | e
    · exact h
    · have he : e ∉ s.pending := find_not_pending heap s.pending e hf
      intro x hx
      exact Finset.mem_erase.mpr ⟨fun hxe => he (hxe ▸ hx), h hx⟩
  · simp only [contractAperture, if_neg hc]
    exact h

/-! The resize stage shared by _AdjustAperture's two branches: whichever of
the two branches runs (or neither), the fields other than idle and active are
untouched, and the active cardinality moves by at most one. -/

theorem resize_stage_gauge (cfg : Props) (pick : Option ℕ) (heap : List ℕ)
    (t : ApertureState) (c1 c2 : Prop) [Decidable c1] [Decidable c2] :
    (if c1 then (tryExpandAperture pick t).1
     else if c2 then contractAperture cfg heap t else t).gauge = t.gauge := by
  split
  · exact tryExpand_gauge pick t
  · split
    · exact contract_gauge cfg heap t
    · rfl

theorem resize_stage_ema (cfg : Props) (pick : Option ℕ) (heap : List ℕ)
    (t : ApertureState) (c1 c2 : Prop) [Decidable c1] [Decidable c2] :
    (if c1 then (tryExpandAperture pick t).1
     else if c2 then contractAperture cfg heap t else t).ema = t.ema := by
  split
  · exact tryExpand_ema pick t
  · split
    · exact contract_ema cfg heap t
    · rfl

theorem resize_stage_total (cfg : Props) (pick : Option ℕ) (heap : List ℕ)
    (t : ApertureState) (c1 c2 : Prop) [Decidable c1] [Decidable c2] :
    (if c1 then (tryExpandAperture pick t).1
     else if c2 then contractAperture cfg heap t else t).total = t.total := by
  split
  · exact tryExpand_total pick t
  · split
    · exact contract_total cfg heap t
    · rfl

theorem resize_stage_card_le (cfg : Props) (pick : Option ℕ) (heap : List ℕ)
    (t : ApertureState) (c1 c2 : Prop) [Decidable c1] [Decidable c2] :
    (if c1 then (tryExpandAperture pick t).1
     else if c2 then contractAperture cfg heap t else t).active.card ≤ t.active.card + 1 := by
  split
  · exact (tryExpand_card pick t).1
  · split
    · exact le_trans (contract_card cfg heap t).1 (Nat.le_succ _)
    · exact Nat.le_succ _

theorem resize_stage_card_ge (cfg : Props) (pick : Option ℕ) (heap : List ℕ)
    (t : ApertureState) (c1 c2 : Prop) [Decidable c1] [Decidable c2] :
    t.active.card ≤ (if c1 then (tryExpandAperture pick t).1
     else if c2 then contractAperture cfg heap t else t).active.card + 1 := by
  split
  · exact le_trans (tryExpand_card pick t).2 (Nat.le_succ _)
  · split
    · exact (contract_card cfg heap t).2
    · exact Nat.le_succ _

theorem resize_stage_subset (cfg : Props) (pick : Option ℕ) (heap : List ℕ)
    (t : ApertureState) (c1 c2 : Prop) [Decidable c1] [Decidable c2]
    (h : t.pending ⊆ t.active) :
    (if c1 then (tryExpandAperture pick t).1
     else if c2 then contractAperture cfg heap t else t).pending ⊆
    (if c1 then (tryExpandAperture pick t).1
     else if c2 then contractAperture cfg heap t else t).active := by
  split
  · exact tryExpand_subset pick t h
  · split
    · exact contract_subset cfg heap t h
    · exact h

/-! Claims about the balancer operations. -/

/-- Claim C1 (code evaluated at the failing input): starting from active
{0, 1} and idle {2}, marking endpoint 0 down leaves 0 in the active set and
grows the active set to 3 endpoints, because _OnNodeDown expands without ever
discarding the downed endpoint; the claim (and the source's own docstring)
expect 0 to be removed, leaving 2 active endpoints. -/
theorem onNodeDown_keeps_downed_endpoint :
    ValidPick (some 2) s_c1.idle ∧
    0 ∈ s_c1.active ∧
    0 ∈ (onNodeDown (some 2) 0 s_c1).active ∧
    (onNodeDown (some 2) 0 s_c1).active.card = 3 ∧
    (onNodeDown (some 2) 0 s_c1).idle = ∅ ∧
    2 ∈ (onNodeDown (some 2) 0 s_c1).active := by
  decide

/-- Counterexample for C2: in the jitter cycle on active {0, 1}, idle {2},
the expansion returns endpoint 2, which is inserted into pending; when the
wait on the expansion handle raises, the cycle ends with 2 still pending,
because the discard sits inside the try block after the wait and only the
rescheduling is in the finally clause. -/
theorem jitter_wait_raises_cex :
    ValidPick (some 2) s_c1.idle ∧
    (tryExpandAperture (some 2) s_c1).2 = some 2 ∧
    2 ∈ (jitter builderDefaults (some 2) [] JitterOutcome.waitRaises s_c1).pending ∧
    2 ∈ (jitter builderDefaults (some 2) [] JitterOutcome.waitRaises s_c1).active := by
  decide

/-- Amended C2: in every jitter cycle in which the expansion returns an
endpoint e and the wait on the expansion handle returns (whether the
expansion succeeded or completed with a stored exception), e is removed from
the pending set by the end of the cycle; if the wait itself raises, the
removal is skipped. -/
theorem jitter_pending_removed (cfg : Props) (pick : Option ℕ) (heap : List ℕ)
    (outcome : JitterOutcome) (s : ApertureState) (e : ℕ)
    (hp : pick = some e) (ho : outcome ≠ JitterOutcome.waitRaises) :
    e ∉ (jitter cfg pick heap outcome s).pending := by
  subst hp
  cases outcome with
  | waitRaises => exact absurd rfl ho
  | completedErr =>
    simp only [jitter, tryExpandAperture]
    exact Finset.not_mem_erase e _
  | completedOk =>
    simp only [jitter, tryExpandAperture]
    exact Finset.not_mem_erase e _

/-- Witness for C2 amended: a successful cycle on active {0, 1}, idle {2}
ends with endpoint 2 no longer pending. -/
theorem jitter_pending_removed_witness :
    2 ∉ (jitter builderDefaults (some 2) [] JitterOutcome.completedOk s_c1).pending :=
  jitter_pending_removed builderDefaults (some 2) [] JitterOutcome.completedOk s_c1 2 rfl
    (by decide)

/-- Counterexample for C3: from the state with active {0, 1} and pending {0}
(as left by a jitter cycle awaiting its expansion handle) and an empty idle
set, RemoveSink of endpoint 0 discards 0 from active but not from pending, so
afterwards 0 ∈ pending, 0 ∉ active, and pending ⊆ active is violated at an
externally observable point. -/
theorem removeSink_breaks_pending_subset :
    s_c3.pending ⊆ s_c3.active ∧
    ValidPick none s_c3.idle ∧
    0 ∈ (removeSink none 0 s_c3).pending ∧
    0 ∉ (removeSink none 0 s_c3).active ∧
    ¬ (removeSink none 0 s_c3).pending ⊆ (removeSink none 0 s_c3).active := by
  decide

/-- Amended C3: pending ⊆ active is preserved by every balancer operation
except a RemoveSink of an endpoint currently in pending; hence the invariant
holds at every externally observable point of every interleaving in which
RemoveSink is never invoked for a pending endpoint. -/
theorem pending_subset_active_preserved (cfg : Props) (op : Op) (s : ApertureState)
    (hinv : s.pending ⊆ s.active)
    (hop : ∀ pick ep, op = Op.remove pick ep → ep ∉ s.pending) :
    (step cfg op s).pending ⊆ (step cfg op s).active := by
  cases op with
  | add healthy ep =>
    simp only [step, addSink]
    split
    · exact fun x hx => Finset.mem_insert_of_mem (hinv hx)
    · exact hinv
  | remove pick ep =>
    have hep : ep ∉ s.pending := hop pick ep rfl
    have h1 : ∀ t : ApertureState, t.pending ⊆ t.active →
        (if ep ∈ t.idle then { t with idle := t.idle.erase ep } else t).pending ⊆
        (if ep ∈ t.idle then { t with idle := t.idle.erase ep } else t).active := by
      intro t ht
      split <;> exact ht
    simp only [step, removeSink]
    apply h1
    split
    · apply tryExpand_subset
      intro x hx
      exact Finset.mem_erase.mpr ⟨fun hxe => hep (hxe ▸ hx), hinv hx⟩
    · exact hinv
  | down pick ep =>
    simp only [step, onNodeDown]
    split
    · exact tryExpand_subset pick s hinv
    · exact hinv
  | jit pick heap outcome =>
    simp only [step, jitter]
    cases pick with
    | none => exact hinv
    | some e =>
      simp only [tryExpandAperture]
      have h2 : insert e s.pending ⊆ insert e s.active :=
        Finset.insert_subset_insert e hinv
      cases outcome with
      | waitRaises => exact h2
      | completedErr =>
        exact fun x hx => h2 (Finset.mem_of_mem_erase hx)
      | completedOk =>
        have h3 := contract_subset cfg heap
          { idle := s.idle.erase e, active := insert e s.active,
            pending := insert e s.pending, total := s.total, ema := s.ema,
            clock := s.clock, gauge := s.gauge } h2
        exact fun x hx => h3 (Finset.mem_of_mem_erase hx)
  | load pick heap wallNow amount =>
    simp only [step, adjustAperture]
    apply resize_stage_subset
    split <;> exact hinv

/-- Witness for C3 amended: a node-down event on the backfill starting state
preserves pending ⊆ active. -/
theorem pending_subset_active_preserved_witness :
    (step builderDefaults (Op.down (some 2) 0) s_c1).pending ⊆
    (step builderDefaults (Op.down (some 2) 0) s_c1).active :=
  pending_subset_active_preserved builderDefaults (Op.down (some 2) 0) s_c1
    (by decide) (fun pick ep h => nomatch h)

/-- Claim C4 (code evaluated at the failing input): with the smoothing window
configured to 10, the constructed balancer's EMA window is the hardcoded 5,
not the configured value; the Builder default 5 merely makes the two
coincide in the default configuration. -/
theorem init_ignores_smoothing_window :
    props10.smoothing_window = 10 ∧
    (initState props10 0).ema.window = 5 ∧
    (initState props10 0).ema.window ≠ props10.smoothing_window ∧
    builderDefaults.smoothing_window = 5 := by
  refine ⟨rfl, rfl, ?_, rfl⟩
  norm_num [initState, props10, builderDefaults, Ema.init]

/-- Counterexample for C5: a single Put with no prior Get drives total to -1
and that raw value is handed to the EMA as the sample: the EMA value after
the event is -1, which is negative, so no clamping to non-negative happens at
read. -/
theorem adjust_negative_sample_cex :
    (adjustAperture builderDefaults none [] 0 (-1) s_c5).ema.value = -1 ∧
    ¬ 0 ≤ (adjustAperture builderDefaults none [] 0 (-1) s_c5).ema.value := by
  have h : (adjustAperture builderDefaults none [] 0 (-1) s_c5).ema
      = s_c5.ema.Update ((s_c5.clock.Sample 0).1 : ℝ) ((s_c5.total + (-1) : ℤ) : ℝ) := by
    simp only [adjustAperture]
    rw [resize_stage_ema]
    split <;> rfl
  have hv : (adjustAperture builderDefaults none [] 0 (-1) s_c5).ema.value = -1 := by
    rw [h]
    norm_num [s_c5, Ema.init, Ema.Update, MonoClock.Sample]
  exact ⟨hv, by rw [hv]; norm_num⟩

/-- Amended C5: the sample fed to the EMA on every load adjustment is the raw
updated counter total + amount, with no clamping; the counter itself is
stored unclamped as well, so Puts that outnumber Gets feed negative samples
to the EMA. -/
theorem adjust_feeds_raw_total (cfg : Props) (pick : Option ℕ) (heap : List ℕ)
    (wallNow : ℚ) (amount : ℤ) (s : ApertureState) :
    (adjustAperture cfg pick heap wallNow amount s).ema
        = s.ema.Update ((s.clock.Sample wallNow).1 : ℝ) ((s.total + amount : ℤ) : ℝ) ∧
    (adjustAperture cfg pick heap wallNow amount s).total = s.total + amount := by
  constructor
  · simp only [adjustAperture]
    rw [resize_stage_ema]
    split <;> rfl
  · simp only [adjustAperture]
    rw [resize_stage_total]
    split <;> rfl

/-- Claim C6: each Get or Put event runs the resize decision once, as
mutually exclusive branches: letting load be max_load when the active set is
empty and avg divided by the active size otherwise, the result is the
expansion when load ≥ max_load and idle is nonempty, else the contraction
when load ≤ min_load and the active size exceeds min_size, else neither; the
load_average gauge is untouched when the active set is empty and set to load
otherwise; and the active size changes by at most one either way. -/
theorem adjust_one_resize (cfg : Props) (pick : Option ℕ) (heap : List ℕ)
    (wallNow : ℚ) (amount : ℤ) (s : ApertureState) :
    (adjustAperture cfg pick heap wallNow amount s =
      (let ts := s.clock.Sample wallNow
       let ema := s.ema.Update (ts.1 : ℝ) ((s.total + amount : ℤ) : ℝ)
       let sz := s.active.card
       let load : ℝ := if sz = 0 then cfg.max_load else ema.value / (sz : ℝ)
       let s2 : ApertureState :=
         if sz = 0 then { s with total := s.total + amount, clock := ts.2, ema := ema }
         else { s with total := s.total + amount, clock := ts.2, ema := ema,
                       gauge := some load }
       if cfg.max_load ≤ load ∧ s2.idle.Nonempty then (tryExpandAperture pick s2).1
       else if load ≤ cfg.min_load ∧ cfg.min_size < sz then contractAperture cfg heap s2
       else s2)) ∧
    ((adjustAperture cfg pick heap wallNow amount s).gauge =
      if s.active.card = 0 then s.gauge
      else some ((s.ema.Update ((s.clock.Sample wallNow).1 : ℝ)
                    ((s.total + amount : ℤ) : ℝ)).value / (s.active.card : ℝ))) ∧
    (adjustAperture cfg pick heap wallNow amount s).active.card ≤ s.active.card + 1 ∧
    s.active.card ≤ (adjustAperture cfg pick heap wallNow amount s).active.card + 1 := by
  refine ⟨rfl, ?_, ?_, ?_⟩
  · simp only [adjustAperture]
    rw [resize_stage_gauge]
    split_ifs with hz <;> rfl
  · simp only [adjustAperture]
    refine le_trans (resize_stage_card_le cfg pick heap _ _ _) ?_
    split <;> exact Nat.le_refl _
  · simp only [adjustAperture]
    refine le_trans (le_of_eq ?_) (resize_stage_card_ge cfg pick heap _ _ _)
    split <;> rfl

end Scales
